import Mathlib

/-!
Verification of the homaya quantum-algorithm constructors
(`homaya-algorithms`: Bernstein-Vazirani, Deutsch-Jozsa, Grover) against
their specification. The gate-sequence builder (`homaya_core::Circuit`) is
an external collaborator of the crate; it is modelled from the spec as an
ordered accumulator of primitive gate operations over a fixed qubit count.
All other definitions are shallow embeddings of the Rust source, with
`usize` modelled as `Nat` and `f64` arithmetic modelled as exact real
arithmetic.
-/

namespace Homaya

/-- Primitive gate operations of the gate-sequence builder interface:
single-qubit Hadamard / Pauli-X / Pauli-Z, controlled-X, Toffoli,
measurement of a qubit into a classical bit, and bulk measurement. -/
inductive Gate where
  | H (i : ℕ)
  | X (i : ℕ)
  | Z (i : ℕ)
  | CX (c t : ℕ)
  | CCX (c1 c2 t : ℕ)
  | Measure (q b : ℕ)
  | MeasureAll
  deriving DecidableEq, Repr

/-- Modelled from the spec: `homaya_core::Circuit`, the Gate-Sequence
Builder collaborator (its source is not part of this crate). Per spec §2
and §6 it "accumulates an ordered list of gate operations against a fixed
number of qubits". -/
structure Circuit where
  num_qubits : ℕ
  gates : List Gate
  deriving DecidableEq, Repr

/-- Modelled from the spec: `allocate(qubit_count) → new empty sequence`. -/
def Circuit.new (n : ℕ) : Circuit := ⟨n, []⟩

/-- Modelled from the spec: record one more gate operation at the end of
the ordered sequence. -/
def Circuit.app (c : Circuit) (g : Gate) : Circuit :=
  ⟨c.num_qubits, c.gates ++ [g]⟩

/-- `Circuit::h(i)`: apply Hadamard at index `i`. -/
def Circuit.h (c : Circuit) (i : ℕ) : Circuit := c.app (Gate.H i)

/-- `Circuit::x(i)`: apply Pauli-X at index `i`. -/
def Circuit.x (c : Circuit) (i : ℕ) : Circuit := c.app (Gate.X i)

/-- `Circuit::z(i)`: apply Pauli-Z at index `i`. -/
def Circuit.z (c : Circuit) (i : ℕ) : Circuit := c.app (Gate.Z i)

/-- `Circuit::cx(c, t)`: controlled-X with control `c`, target `t`. -/
def Circuit.cx (c : Circuit) (ctrl tgt : ℕ) : Circuit := c.app (Gate.CX ctrl tgt)

/-- `Circuit::ccx(c1, c2, t)`: Toffoli with controls `c1, c2`, target `t`. -/
def Circuit.ccx (c : Circuit) (c1 c2 tgt : ℕ) : Circuit := c.app (Gate.CCX c1 c2 tgt)

/-- `Circuit::measure(q, b)`: measure qubit `q` into classical bit `b`. -/
def Circuit.measure (c : Circuit) (q b : ℕ) : Circuit := c.app (Gate.Measure q b)

/-- `Circuit::measure_all()`: record measurement of all qubits. -/
def Circuit.measure_all (c : Circuit) : Circuit := c.app Gate.MeasureAll

/-! ## Bernstein-Vazirani (src/crates/homaya-algorithms/src/bernstein_vazirani.rs) -/

/-- `BernsteinVazirani`: parameter holder for the algorithm. -/
structure BernsteinVazirani where
  n_qubits : ℕ
  secret : ℕ
  deriving DecidableEq, Repr

/-- `BernsteinVazirani::new(n_qubits, secret)`: asserts
`secret < 1 << n_qubits`; the fatal assertion failure is modelled as
`none`. -/
def BernsteinVazirani.new (n_qubits secret : ℕ) : Option BernsteinVazirani :=
  let max_secret := 1 <<< n_qubits
  if secret < max_secret then some ⟨n_qubits, secret⟩ else none

/-- `BernsteinVazirani::build()`: X on the ancilla, H on all qubits, the
dot-product oracle, H on query qubits, measure query qubits. -/
def BernsteinVazirani.build (bv : BernsteinVazirani) : Circuit :=
  let total_qubits := bv.n_qubits + 1
  let ancilla := bv.n_qubits
  let circuit := Circuit.new total_qubits
  let circuit := circuit.x ancilla
  let circuit := (List.range total_qubits).foldl (fun c i => c.h i) circuit
  let circuit := (List.range bv.n_qubits).foldl
    (fun c i => if (bv.secret >>> i) &&& 1 = 1 then c.cx i ancilla else c) circuit
  let circuit := (List.range bv.n_qubits).foldl (fun c i => c.h i) circuit
  (List.range bv.n_qubits).foldl (fun c i => c.measure i i) circuit

/-- Reference sequence of claim C1, written from the claim's words: X on
qubit n; Hadamard on qubits 0..n ascending; for each i ascending with bit
i of s set, controlled-X from i to n; Hadamard on 0..n-1 ascending;
measurement of each query qubit i into classical bit i, ascending. -/
def bvReference (n s : ℕ) : Circuit :=
  ⟨n + 1,
    [Gate.X n]
      ++ (List.range (n + 1)).map Gate.H
      ++ ((List.range n).filter (fun i => s.testBit i)).map (fun i => Gate.CX i n)
      ++ (List.range n).map Gate.H
      ++ (List.range n).map (fun i => Gate.Measure i i)⟩

/-! ## Generic lemmas about gate-appending loops -/

theorem foldl_app_gates (g : ℕ → Gate) (l : List ℕ) (c : Circuit) :
    l.foldl (fun c i => c.app (g i)) c = ⟨c.num_qubits, c.gates ++ l.map g⟩ := by
  induction l generalizing c with
  | nil => simp
  | cons a t ih => rw [List.foldl_cons, ih]; simp [Circuit.app]

theorem foldl_app_ite (p : ℕ → Prop) [DecidablePred p] (g : ℕ → Gate)
    (l : List ℕ) (c : Circuit) :
    l.foldl (fun c i => if p i then c.app (g i) else c) c
      = ⟨c.num_qubits, c.gates ++ (l.filter (fun i => decide (p i))).map g⟩ := by
  induction l generalizing c with
  | nil => simp
  | cons a t ih =>
    rw [List.foldl_cons]
    by_cases hp : p a
    · rw [if_pos hp, ih]; simp [Circuit.app, hp]
    · rw [if_neg hp, ih]; simp [hp]

theorem testBit_eq_shift_and (s i : ℕ) :
    (decide ((s >>> i) &&& 1 = 1)) = s.testBit i := by
  rw [Nat.testBit_to_div_mod, Nat.and_one_is_mod, Nat.shiftRight_eq_div_pow]

/-- The Bernstein-Vazirani build laid out as an explicit gate list. -/
theorem bv_build_eq (n s : ℕ) :
    (BernsteinVazirani.mk n s).build = bvReference n s := by
  have hfilter : (fun i => decide ((s >>> i) &&& 1 = 1)) = (fun i => s.testBit i) :=
    funext (testBit_eq_shift_and s)
  show (List.range n).foldl (fun c i => c.app (Gate.Measure i i))
      ((List.range n).foldl (fun c i => c.app (Gate.H i))
        ((List.range n).foldl
          (fun c i => if (s >>> i) &&& 1 = 1 then c.app (Gate.CX i n) else c)
          ((List.range (n + 1)).foldl (fun c i => c.app (Gate.H i))
            ((Circuit.new (n + 1)).app (Gate.X n))))) = bvReference n s
  rw [foldl_app_gates, foldl_app_ite, foldl_app_gates, foldl_app_gates, hfilter]
  simp [Circuit.new, Circuit.app, bvReference]

/-! ## Deutsch-Jozsa (src/crates/homaya-algorithms/src/deutsch.rs) -/

/-- `FunctionType`: the closed set of four oracle selectors. -/
inductive FunctionType where
  | ConstantZero
  | ConstantOne
  | BalancedParity
  | BalancedFirstBit
  deriving DecidableEq, Repr

/-- `DeutschJozsa`: parameter holder for the algorithm. -/
structure DeutschJozsa where
  n_qubits : ℕ
  function : FunctionType
  deriving DecidableEq, Repr

/-- `DeutschJozsa::new(n_qubits, function)`: asserts `n_qubits >= 1`; the
fatal assertion failure is modelled as `none`. -/
def DeutschJozsa.new (n_qubits : ℕ) (function : FunctionType) : Option DeutschJozsa :=
  if 1 ≤ n_qubits then some ⟨n_qubits, function⟩ else none

/-- `DeutschJozsa::apply_oracle(circuit, ancilla)`: the four-way oracle
dispatch. -/
def DeutschJozsa.apply_oracle (dj : DeutschJozsa) (circuit : Circuit)
    (ancilla : ℕ) : Circuit :=
  match dj.function with
  | FunctionType.ConstantZero => circuit
  | FunctionType.ConstantOne => circuit.x ancilla
  | FunctionType.BalancedParity =>
      (List.range dj.n_qubits).foldl (fun c i => c.cx i ancilla) circuit
  | FunctionType.BalancedFirstBit => circuit.cx 0 ancilla

/-- `DeutschJozsa::build()`: X on the ancilla, H on all qubits, the
oracle, H on query qubits, measure query qubits. -/
def DeutschJozsa.build (dj : DeutschJozsa) : Circuit :=
  let total_qubits := dj.n_qubits + 1
  let ancilla := dj.n_qubits
  let circuit := Circuit.new total_qubits
  let circuit := circuit.x ancilla
  let circuit := (List.range total_qubits).foldl (fun c i => c.h i) circuit
  let circuit := dj.apply_oracle circuit ancilla
  let circuit := (List.range dj.n_qubits).foldl (fun c i => c.h i) circuit
  (List.range dj.n_qubits).foldl (fun c i => c.measure i i) circuit

/-- `DeutschJozsa::is_constant(measurement)`: true iff every character of
the measured bit string is the zero character. -/
def DeutschJozsa.is_constant (measurement : String) : Bool :=
  measurement.toList.all (fun c => c == '0')

/-- Oracle segment of claim C3, written from the claim's words: no gates
for constant-zero; one unconditional X on the ancilla for constant-one;
one controlled-X from each query qubit ascending to the ancilla for
balanced-parity; one controlled-X from query qubit 0 to the ancilla for
balanced-first-bit. -/
def djOracleReference (n : ℕ) : FunctionType → List Gate
  | FunctionType.ConstantZero => []
  | FunctionType.ConstantOne => [Gate.X n]
  | FunctionType.BalancedParity => (List.range n).map (fun i => Gate.CX i n)
  | FunctionType.BalancedFirstBit => [Gate.CX 0 n]

/-- Surrounding structure of claim C3: X on the ancilla, Hadamard on all
n+1 qubits, the oracle segment, Hadamard on query qubits only, then
measurement of each query qubit i into classical bit i. -/
def djReference (n : ℕ) (f : FunctionType) : Circuit :=
  ⟨n + 1,
    [Gate.X n]
      ++ (List.range (n + 1)).map Gate.H
      ++ djOracleReference n f
      ++ (List.range n).map Gate.H
      ++ (List.range n).map (fun i => Gate.Measure i i)⟩

theorem dj_apply_oracle_eq (n : ℕ) (f : FunctionType) (c : Circuit) :
    (DeutschJozsa.mk n f).apply_oracle c n
      = ⟨c.num_qubits, c.gates ++ djOracleReference n f⟩ := by
  cases f with
  | ConstantZero => simp [DeutschJozsa.apply_oracle, djOracleReference]
  | ConstantOne => simp [DeutschJozsa.apply_oracle, djOracleReference, Circuit.x, Circuit.app]
  | BalancedParity =>
      show (List.range n).foldl (fun c i => c.app (Gate.CX i n)) c = _
      rw [foldl_app_gates]; simp [djOracleReference]
  | BalancedFirstBit => simp [DeutschJozsa.apply_oracle, djOracleReference, Circuit.cx, Circuit.app]

/-- The Deutsch-Jozsa build laid out as an explicit gate list. -/
theorem dj_build_eq (n : ℕ) (f : FunctionType) :
    (DeutschJozsa.mk n f).build = djReference n f := by
  show (List.range n).foldl (fun c i => c.app (Gate.Measure i i))
      ((List.range n).foldl (fun c i => c.app (Gate.H i))
        ((DeutschJozsa.mk n f).apply_oracle
          ((List.range (n + 1)).foldl (fun c i => c.app (Gate.H i))
            ((Circuit.new (n + 1)).app (Gate.X n))) n)) = djReference n f
  rw [foldl_app_gates, dj_apply_oracle_eq, foldl_app_gates, foldl_app_gates]
  simp [Circuit.new, Circuit.app, djReference]

/-! ## Grover (src/crates/homaya-algorithms/src/grover.rs) -/

/-- `GroverSearch`: parameter holder for the algorithm. -/
structure GroverSearch where
  n_qubits : ℕ
  target : ℕ
  iterations : Option ℕ
  deriving DecidableEq, Repr

/-- `GroverSearch::new(n_qubits, target)`: asserts
`target < 1 << n_qubits`; the fatal assertion failure is modelled as
`none`. -/
def GroverSearch.new (n_qubits target : ℕ) : Option GroverSearch :=
  let max_target := 1 <<< n_qubits
  if target < max_target then some ⟨n_qubits, target, none⟩ else none

/-- `GroverSearch::optimal_iterations()`:
`(PI / 4.0 * n.sqrt()).round() as usize` floored at 1, with the `f64`
arithmetic modelled as exact real arithmetic. -/
noncomputable def GroverSearch.optimal_iterations (g : GroverSearch) : ℕ :=
  let n : ℝ := ((1 <<< g.n_qubits : ℕ) : ℝ)
  let optimal := (round (Real.pi / (4 : ℝ) * Real.sqrt n)).toNat
  max optimal 1

/-- `GroverSearch::multi_controlled_z(circuit)`: the four-way dispatch on
the qubit count. -/
def GroverSearch.multi_controlled_z (g : GroverSearch) (circuit : Circuit) : Circuit :=
  match g.n_qubits with
  | 0 => circuit.z 0
  | 1 => circuit.z 0
  | 2 => ((circuit.h 1).cx 0 1).h 1
  | 3 => ((circuit.h 2).ccx 0 1 2).h 2
  | _ + 4 =>
      let last := g.n_qubits - 1
      ((List.range last).foldl (fun c i => c.cx i last) (circuit.h last)).h last

/-- `GroverSearch::apply_oracle(circuit)`: X on the qubits whose target
bit is 0, multi-controlled-Z, undo the X gates. -/
def GroverSearch.apply_oracle (g : GroverSearch) (circuit : Circuit) : Circuit :=
  let circuit := (List.range g.n_qubits).foldl
    (fun c i => if (g.target >>> i) &&& 1 = 0 then c.x i else c) circuit
  let circuit := g.multi_controlled_z circuit
  (List.range g.n_qubits).foldl
    (fun c i => if (g.target >>> i) &&& 1 = 0 then c.x i else c) circuit

/-- `GroverSearch::apply_diffusion(circuit)`: H all, X all,
multi-controlled-Z, undo X, undo H. -/
def GroverSearch.apply_diffusion (g : GroverSearch) (circuit : Circuit) : Circuit :=
  let circuit := (List.range g.n_qubits).foldl (fun c i => c.h i) circuit
  let circuit := (List.range g.n_qubits).foldl (fun c i => c.x i) circuit
  let circuit := g.multi_controlled_z circuit
  let circuit := (List.range g.n_qubits).foldl (fun c i => c.x i) circuit
  (List.range g.n_qubits).foldl (fun c i => c.h i) circuit

/-- Body of `GroverSearch::build()` once the effective iteration count is
fixed: uniform superposition, the iterations of oracle + diffusion, then
`measure_all`. -/
def GroverSearch.buildWith (g : GroverSearch) (iterations : ℕ) : Circuit :=
  let circuit := Circuit.new g.n_qubits
  let circuit := (List.range g.n_qubits).foldl (fun c i => c.h i) circuit
  let circuit := (List.range iterations).foldl
    (fun c _ => g.apply_diffusion (g.apply_oracle c)) circuit
  circuit.measure_all

/-- `GroverSearch::build()`: uses the stored iteration override when
present, else `optimal_iterations()`. -/
noncomputable def GroverSearch.build (g : GroverSearch) : Circuit :=
  g.buildWith (g.iterations.getD g.optimal_iterations)

/-- Multi-controlled-Z expansion of claim C2, written from the claim's
words: for n = 0 or 1 a single Z on qubit 0; for n = 2 an H-CX-H
sandwich on qubit 1; for n = 3 an H-CCX-H sandwich on qubit 2; for
n >= 4 Hadamard on qubit n-1, a controlled-X from each qubit i < n-1
ascending to qubit n-1, and Hadamard on qubit n-1. -/
def mczReference (n : ℕ) : List Gate :=
  if n = 0 ∨ n = 1 then [Gate.Z 0]
  else if n = 2 then [Gate.H 1, Gate.CX 0 1, Gate.H 1]
  else if n = 3 then [Gate.H 2, Gate.CCX 0 1 2, Gate.H 2]
  else [Gate.H (n - 1)]
    ++ (List.range (n - 1)).map (fun i => Gate.CX i (n - 1))
    ++ [Gate.H (n - 1)]

theorem grover_mcz_eq (g : GroverSearch) (c : Circuit) :
    g.multi_controlled_z c = ⟨c.num_qubits, c.gates ++ mczReference g.n_qubits⟩ := by
  obtain ⟨n, t, it⟩ := g
  match n with
  | 0 => simp [GroverSearch.multi_controlled_z, mczReference, Circuit.z, Circuit.app]
  | 1 => simp [GroverSearch.multi_controlled_z, mczReference, Circuit.z, Circuit.app]
  | 2 => simp [GroverSearch.multi_controlled_z, mczReference, Circuit.h, Circuit.cx, Circuit.app]
  | 3 => simp [GroverSearch.multi_controlled_z, mczReference, Circuit.h, Circuit.ccx, Circuit.app]
  | m + 4 =>
    have h0 : ¬(m + 4 = 0 ∨ m + 4 = 1) := by omega
    have h2 : ¬(m + 4 = 2) := by omega
    have h3 : ¬(m + 4 = 3) := by omega
    show ((List.range (m + 3)).foldl (fun c i => c.app (Gate.CX i (m + 3)))
        (c.app (Gate.H (m + 3)))).app (Gate.H (m + 3)) = _
    rw [foldl_app_gates]
    simp only [mczReference, if_neg h0, if_neg h2, if_neg h3]
    simp [Circuit.app]

/-- X-encoding layer of the Grover oracle: X on each qubit whose target
bit is 0, ascending. -/
def groverEncodeX (n t : ℕ) : List Gate :=
  ((List.range n).filter (fun i => decide ((t >>> i) &&& 1 = 0))).map Gate.X

/-- Gate list appended by one oracle application. -/
def groverOracleGates (n t : ℕ) : List Gate :=
  groverEncodeX n t ++ mczReference n ++ groverEncodeX n t

/-- Gate list appended by one diffusion application. -/
def groverDiffusionGates (n : ℕ) : List Gate :=
  (List.range n).map Gate.H ++ (List.range n).map Gate.X
    ++ mczReference n ++ (List.range n).map Gate.X ++ (List.range n).map Gate.H

theorem grover_apply_oracle_eq (g : GroverSearch) (c : Circuit) :
    g.apply_oracle c
      = ⟨c.num_qubits, c.gates ++ groverOracleGates g.n_qubits g.target⟩ := by
  show (List.range g.n_qubits).foldl
      (fun c i => if (g.target >>> i) &&& 1 = 0 then c.app (Gate.X i) else c)
      (g.multi_controlled_z
        ((List.range g.n_qubits).foldl
          (fun c i => if (g.target >>> i) &&& 1 = 0 then c.app (Gate.X i) else c) c)) = _
  rw [foldl_app_ite, grover_mcz_eq, foldl_app_ite]
  simp [groverOracleGates, groverEncodeX, List.append_assoc]

theorem grover_apply_diffusion_eq (g : GroverSearch) (c : Circuit) :
    g.apply_diffusion c
      = ⟨c.num_qubits, c.gates ++ groverDiffusionGates g.n_qubits⟩ := by
  show (List.range g.n_qubits).foldl (fun c i => c.app (Gate.H i))
      ((List.range g.n_qubits).foldl (fun c i => c.app (Gate.X i))
        (g.multi_controlled_z
          ((List.range g.n_qubits).foldl (fun c i => c.app (Gate.X i))
            ((List.range g.n_qubits).foldl (fun c i => c.app (Gate.H i)) c)))) = _
  rw [foldl_app_gates, foldl_app_gates, grover_mcz_eq, foldl_app_gates, foldl_app_gates]
  simp [groverDiffusionGates, List.append_assoc]

theorem flatten_replicate_succ (L : List Gate) (k : ℕ) :
    (List.replicate (k + 1) L).flatten = (List.replicate k L).flatten ++ L := by
  induction k with
  | zero => simp
  | succ k ih =>
    have hcomm : L ++ (List.replicate k L).flatten
        = (List.replicate k L).flatten ++ L := by
      rw [← List.flatten_cons, ← List.replicate_succ]; exact ih
    rw [List.replicate_succ, List.flatten_cons, ih, ← List.append_assoc, hcomm]

theorem foldl_iter_append (f : Circuit → Circuit) (L : List Gate)
    (hf : ∀ c, f c = ⟨c.num_qubits, c.gates ++ L⟩) (k : ℕ) (c : Circuit) :
    (List.range k).foldl (fun c _ => f c) c
      = ⟨c.num_qubits, c.gates ++ (List.replicate k L).flatten⟩ := by
  induction k with
  | zero => simp
  | succ k ih =>
    rw [List.range_succ, List.foldl_append, ih]
    simp [hf, flatten_replicate_succ, List.append_assoc]

/-- The Grover build (at a fixed iteration count) laid out as an explicit
gate list: superposition layer, the iterated oracle + diffusion pairs,
and the final bulk measurement. -/
theorem grover_buildWith_eq (g : GroverSearch) (k : ℕ) :
    g.buildWith k = ⟨g.n_qubits,
      (List.range g.n_qubits).map Gate.H
        ++ (List.replicate k (groverOracleGates g.n_qubits g.target
              ++ groverDiffusionGates g.n_qubits)).flatten
        ++ [Gate.MeasureAll]⟩ := by
  have hf : ∀ c : Circuit, g.apply_diffusion (g.apply_oracle c)
      = ⟨c.num_qubits, c.gates ++ (groverOracleGates g.n_qubits g.target
          ++ groverDiffusionGates g.n_qubits)⟩ := by
    intro c
    rw [grover_apply_oracle_eq, grover_apply_diffusion_eq]
    simp
  show (((List.range k).foldl (fun c _ => g.apply_diffusion (g.apply_oracle c))
      ((List.range g.n_qubits).foldl (fun c i => c.app (Gate.H i))
        (Circuit.new g.n_qubits)))).app Gate.MeasureAll = _
  rw [foldl_app_gates,
    foldl_iter_append (fun c => g.apply_diffusion (g.apply_oracle c))
      (groverOracleGates g.n_qubits g.target ++ groverDiffusionGates g.n_qubits) hf]
  simp [Circuit.new, Circuit.app]

/-! ## Binary rendering (`BernsteinVazirani::secret_as_binary`) -/

/-- Big-endian binary digits of a natural number, empty for 0: the digit
expansion underlying Rust's `{:b}` formatting. -/
def natBinDigits (n : ℕ) : List Char :=
  if h : n = 0 then []
  else natBinDigits (n / 2) ++ [if n % 2 = 1 then '1' else '0']
decreasing_by exact Nat.div_lt_self (Nat.pos_of_ne_zero h) (by norm_num)

/-- Rust's `format!("{:0width$b}", n)`: the binary digits of `n` (the
single digit `'0'` when `n = 0`), left-padded with `'0'` to `width`. -/
def formatBinaryPadded (width n : ℕ) : String :=
  let digits := if n = 0 then ['0'] else natBinDigits n
  ⟨List.replicate (width - digits.length) '0' ++ digits⟩

/-- `BernsteinVazirani::secret_as_binary()`:
`format!("{:0width$b}", self.secret, width = self.n_qubits)`. -/
def BernsteinVazirani.secret_as_binary (bv : BernsteinVazirani) : String :=
  formatBinaryPadded bv.n_qubits bv.secret

/-- The value of a string read as an unsigned big-endian binary integer,
from the claim's words. -/
def binValue (s : String) : ℕ :=
  s.toList.foldl (fun acc c => 2 * acc + (if c = '1' then 1 else 0)) 0

theorem natBinDigits_foldl (s : ℕ) : ∀ acc : ℕ,
    (natBinDigits s).foldl (fun acc c => 2 * acc + (if c = '1' then 1 else 0)) acc
      = acc * 2 ^ (natBinDigits s).length + s := by
  induction s using Nat.strong_induction_on with
  | _ s ih =>
    intro acc
    rw [natBinDigits]
    split
    · next h => subst h; simp
    · next h =>
      rw [List.foldl_append,
        ih (s / 2) (Nat.div_lt_self (Nat.pos_of_ne_zero h) (by norm_num))]
      have hbit : (if (if s % 2 = 1 then '1' else '0') = '1' then 1 else 0) = s % 2 := by
        rcases Nat.mod_two_eq_zero_or_one s with h2 | h2 <;> simp [h2]
      simp only [List.foldl_cons, List.foldl_nil, List.length_append,
        List.length_singleton, hbit, pow_succ]
      calc 2 * (acc * 2 ^ (natBinDigits (s / 2)).length + s / 2) + s % 2
          = acc * (2 ^ (natBinDigits (s / 2)).length * 2)
              + (2 * (s / 2) + s % 2) := by ring
        _ = acc * (2 ^ (natBinDigits (s / 2)).length * 2) + s := by
            rw [Nat.div_add_mod]

theorem natBinDigits_length_le (n : ℕ) :
    ∀ s : ℕ, s < 2 ^ n → (natBinDigits s).length ≤ n := by
  induction n with
  | zero =>
      intro s hs
      rw [pow_zero] at hs
      have h0 : s = 0 := by omega
      subst h0
      rw [natBinDigits]
      simp
  | succ n ih =>
      intro s hs
      rw [natBinDigits]
      split
      · simp
      · next h =>
        have h2 : s / 2 < 2 ^ n :=
          Nat.div_lt_of_lt_mul (by rw [← pow_succ']; exact hs)
        have := ih (s / 2) h2
        simp only [List.length_append, List.length_singleton]
        omega

theorem natBinDigits_mem (s : ℕ) :
    ∀ c ∈ natBinDigits s, c = '0' ∨ c = '1' := by
  induction s using Nat.strong_induction_on with
  | _ s ih =>
    rw [natBinDigits]
    split
    · simp
    · next h =>
      intro c hc
      rw [List.mem_append] at hc
      rcases hc with hc | hc
      · exact ih _ (Nat.div_lt_self (Nat.pos_of_ne_zero h) (by norm_num)) c hc
      · simp only [List.mem_singleton] at hc
        subst hc
        by_cases h2 : s % 2 = 1 <;> simp [h2]

theorem foldl_zero_replicate (k : ℕ) :
    (List.replicate k '0').foldl
      (fun acc c => 2 * acc + (if c = '1' then 1 else 0)) 0 = 0 := by
  induction k with
  | zero => simp
  | succ k ih => rw [List.replicate_succ, List.foldl_cons]; simpa using ih

/-- `secret_as_binary` has width `n`, only binary digits, and value `s`,
whenever `1 ≤ n` and `s < 2 ^ n`. -/
theorem secret_as_binary_spec (n s : ℕ) (h1 : 1 ≤ n) (h2 : s < 2 ^ n) :
    ((BernsteinVazirani.mk n s).secret_as_binary).length = n
      ∧ (∀ c ∈ ((BernsteinVazirani.mk n s).secret_as_binary).toList,
          c = '0' ∨ c = '1')
      ∧ binValue ((BernsteinVazirani.mk n s).secret_as_binary) = s := by
  have hlen : (if s = 0 then ['0'] else natBinDigits s).length ≤ n := by
    split
    · simpa using h1
    · exact natBinDigits_length_le n s h2
  refine ⟨?_, ?_, ?_⟩
  · show (List.replicate (n - _) '0' ++ _).length = n
    simp only [List.length_append, List.length_replicate]
    omega
  · show ∀ c ∈ List.replicate (n - _) '0' ++ _, _
    intro c hc
    rw [List.mem_append] at hc
    rcases hc with hc | hc
    · exact Or.inl (List.eq_of_mem_replicate hc)
    · split at hc
      · simp only [List.mem_singleton] at hc; exact Or.inl hc
      · exact natBinDigits_mem s c hc
  · show (List.replicate (n - _) '0' ++ _).foldl _ 0 = s
    rw [List.foldl_append, foldl_zero_replicate]
    split
    · next h0 => subst h0; simp
    · next h0 => simpa using natBinDigits_foldl s 0

/-! ## Predicates on measured bit strings -/

theorem is_constant_iff (m : String) :
    DeutschJozsa.is_constant m = true ↔ ∀ c ∈ m.toList, c = '0' := by
  simp [DeutschJozsa.is_constant, List.all_eq_true]

/-! ## Claim-side formula for the optimal Grover iteration count -/

/-- Formula of claim C7, written from the claim's words:
`max(1, round(pi/4 * sqrt(2^n)))`. -/
noncomputable def optimalIterationsFormula (n : ℕ) : ℕ :=
  (max 1 (round (Real.pi / (4 : ℝ) * Real.sqrt ((2 : ℝ) ^ n)))).toNat

/-! ## The claims -/

/-- C1: for every n >= 1 and secret s < 2^n, `BernsteinVazirani::build()`
returns exactly the reference sequence `bvReference n s` (X on the
ancilla, H on all n+1 qubits, CX from each set secret bit to the ancilla
ascending, H on the query qubits, measurement of each query qubit into
its classical bit), with no other gates. -/
theorem claim_C1 (n s : ℕ) (h1 : 1 ≤ n) (h2 : s < 2 ^ n) :
    (BernsteinVazirani.mk n s).build = bvReference n s :=
  bv_build_eq n s

theorem claim_C1_witness :
    (BernsteinVazirani.mk 4 10).build = bvReference 4 10 :=
  claim_C1 4 10 (by norm_num) (by norm_num)

/-- C2: for every validly constructed `GroverSearch`, each
multi-controlled-Z occurrence expands exactly to `mczReference n` (the
four-way dispatch on the qubit count), and the built sequence at any
iteration count is the superposition layer, the iterated
oracle + diffusion pairs (each containing exactly one such expansion),
and the bulk measurement. -/
theorem claim_C2 (g : GroverSearch) (hv : g.target < 2 ^ g.n_qubits) :
    (∀ c : Circuit, g.multi_controlled_z c
        = ⟨c.num_qubits, c.gates ++ mczReference g.n_qubits⟩)
      ∧ ∀ k : ℕ, g.buildWith k = ⟨g.n_qubits,
          (List.range g.n_qubits).map Gate.H
            ++ (List.replicate k (groverOracleGates g.n_qubits g.target
                  ++ groverDiffusionGates g.n_qubits)).flatten
            ++ [Gate.MeasureAll]⟩ :=
  ⟨fun c => grover_mcz_eq g c, fun k => grover_buildWith_eq g k⟩

theorem claim_C2_witness :
    (GroverSearch.mk 2 3 none).multi_controlled_z (Circuit.new 2)
        = ⟨(Circuit.new 2).num_qubits, (Circuit.new 2).gates ++ mczReference 2⟩
      ∧ (GroverSearch.mk 2 3 none).buildWith 1 = ⟨2,
          (List.range 2).map Gate.H
            ++ (List.replicate 1 (groverOracleGates 2 3
                  ++ groverDiffusionGates 2)).flatten
            ++ [Gate.MeasureAll]⟩ := by
  have h := claim_C2 (GroverSearch.mk 2 3 none) (by decide)
  exact ⟨h.1 (Circuit.new 2), h.2 1⟩

/-- C3: for every n >= 1 and each of the four oracle selectors,
`DeutschJozsa::build()` returns exactly `djReference n f`: X on the
ancilla, H on all n+1 qubits, the selector's oracle segment
(`djOracleReference`), H on the query qubits only, and measurement of
each query qubit into its classical bit. -/
theorem claim_C3 (n : ℕ) (f : FunctionType) (h1 : 1 ≤ n) :
    (DeutschJozsa.mk n f).build = djReference n f :=
  dj_build_eq n f

theorem claim_C3_witness :
    (DeutschJozsa.mk 2 FunctionType.BalancedParity).build
      = djReference 2 FunctionType.BalancedParity :=
  claim_C3 2 FunctionType.BalancedParity (by norm_num)

/-- C4: `BernsteinVazirani::new(n, s)` fails with the invalid-parameter
error iff s >= 2^n, and `GroverSearch::new(n, t)` fails iff t >= 2^n; in
the failing case no value is produced, in the non-failing case
construction succeeds; n = 4 with value 16 fails. -/
theorem claim_C4 (n s t : ℕ) :
    (BernsteinVazirani.new n s = none ↔ 2 ^ n ≤ s)
      ∧ (GroverSearch.new n t = none ↔ 2 ^ n ≤ t)
      ∧ (s < 2 ^ n → BernsteinVazirani.new n s = some ⟨n, s⟩)
      ∧ (t < 2 ^ n → GroverSearch.new n t = some ⟨n, t, none⟩)
      ∧ BernsteinVazirani.new 4 16 = none
      ∧ GroverSearch.new 4 16 = none
      ∧ BernsteinVazirani.new 4 15 = some ⟨4, 15⟩
      ∧ GroverSearch.new 4 15 = some ⟨4, 15, none⟩ := by
  refine ⟨?_, ?_, fun h => ?_, fun h => ?_, by decide, by decide, by decide, by decide⟩
  · simp only [BernsteinVazirani.new, Nat.one_shiftLeft]
    split
    · next h => exact iff_of_false (by simp) (not_le.mpr h)
    · next h => exact iff_of_true rfl (not_lt.mp h)
  · simp only [GroverSearch.new, Nat.one_shiftLeft]
    split
    · next h => exact iff_of_false (by simp) (not_le.mpr h)
    · next h => exact iff_of_true rfl (not_lt.mp h)
  · simp [BernsteinVazirani.new, Nat.one_shiftLeft, h]
  · simp [GroverSearch.new, Nat.one_shiftLeft, h]

theorem claim_C4_witness :
    BernsteinVazirani.new 4 3 = some ⟨4, 3⟩
      ∧ GroverSearch.new 4 7 = some ⟨4, 7, none⟩
      ∧ BernsteinVazirani.new 4 16 = none
      ∧ GroverSearch.new 4 16 = none := by
  have h := claim_C4 4 3 7
  exact ⟨h.2.2.1 (by norm_num), h.2.2.2.1 (by norm_num), h.2.2.2.2.1, h.2.2.2.2.2.1⟩

/-- C5 counterexample: the claim says `BernsteinVazirani::new` with
bit-width n = 0 fails fatally, but `new(0, 0)` succeeds — the source
only checks `secret < 1 << n_qubits`, and 0 < 1. -/
theorem claim_C5_counterexample :
    BernsteinVazirani.new 0 0 = some ⟨0, 0⟩ := by decide

/-- C5 amended: n >= 1 is enforced at construction only for
Deutsch-Jozsa; Bernstein-Vazirani applies only the range check, so
`new(0, s)` fails iff s >= 1 (in particular `new(0, 0)` succeeds), and
Grover accepts n = 0. -/
theorem claim_C5_amended (n s : ℕ) (f : FunctionType) :
    DeutschJozsa.new 0 f = none
      ∧ (1 ≤ n → DeutschJozsa.new n f = some ⟨n, f⟩)
      ∧ (BernsteinVazirani.new 0 s = if s = 0 then some ⟨0, s⟩ else none)
      ∧ GroverSearch.new 0 0 = some ⟨0, 0, none⟩ := by
  refine ⟨by simp [DeutschJozsa.new], fun h => by simp [DeutschJozsa.new, h], ?_, by decide⟩
  simp only [BernsteinVazirani.new]
  rw [show (1 <<< 0 : ℕ) = 1 from rfl]
  simp [Nat.lt_one_iff]

theorem claim_C5_witness :
    DeutschJozsa.new 0 FunctionType.ConstantZero = none
      ∧ DeutschJozsa.new 3 FunctionType.ConstantZero
          = some ⟨3, FunctionType.ConstantZero⟩
      ∧ (BernsteinVazirani.new 0 5 = if (5 : ℕ) = 0 then some ⟨0, 5⟩ else none)
      ∧ GroverSearch.new 0 0 = some ⟨0, 0, none⟩ := by
  have h := claim_C5_amended 3 5 FunctionType.ConstantZero
  exact ⟨h.1, h.2.1 (by norm_num), h.2.2.1, h.2.2.2⟩

/-- C6: `GroverSearch::new(0, 0)` succeeds and `build()` on the result
completes without failure, producing the degenerate sequence in which
the multi-controlled-Z dispatch emits `Z 0` inside a zero-qubit
circuit. -/
theorem claim_C6 :
    GroverSearch.new 0 0 = some ⟨0, 0, none⟩
      ∧ (GroverSearch.mk 0 0 none).build
          = ⟨0, [Gate.Z 0, Gate.Z 0, Gate.MeasureAll]⟩
      ∧ (GroverSearch.mk 0 0 none).build.num_qubits = 0
      ∧ Gate.Z 0 ∈ (GroverSearch.mk 0 0 none).build.gates := by
  have hr : round (Real.pi / (4 : ℝ) * Real.sqrt ((1 <<< 0 : ℕ) : ℝ)) = 1 := by
    have h1 : Real.sqrt ((1 <<< 0 : ℕ) : ℝ) = 1 := by
      rw [show (1 <<< 0 : ℕ) = 1 from rfl]; norm_num [Real.sqrt_one]
    have hpl := Real.pi_gt_three
    have hpu := Real.pi_lt_d2
    rw [h1, round_eq]
    apply Int.floor_eq_iff.mpr
    constructor
    · push_cast; nlinarith
    · push_cast; nlinarith
  have hoi : (GroverSearch.mk 0 0 none).optimal_iterations = 1 := by
    show max (round (Real.pi / (4 : ℝ) * Real.sqrt ((1 <<< 0 : ℕ) : ℝ))).toNat 1 = 1
    rw [hr]; decide
  have hb : (GroverSearch.mk 0 0 none).build
      = (GroverSearch.mk 0 0 none).buildWith 1 := by
    show (GroverSearch.mk 0 0 none).buildWith
        ((none : Option ℕ).getD (GroverSearch.mk 0 0 none).optimal_iterations) = _
    rw [Option.getD_none, hoi]
  refine ⟨by decide, ?_, ?_, ?_⟩ <;> rw [hb] <;> decide

/-- C7: for all n >= 1 and valid targets t < 2^n,
`GroverSearch::optimal_iterations()` equals
`max(1, round(pi/4 * sqrt(2^n)))` independently of t, and it returns 2
for n = 3 and 3 for n = 4. The `f64` arithmetic of the source is
modelled as exact real arithmetic. -/
theorem claim_C7 (n t : ℕ) (h1 : 1 ≤ n) (h2 : t < 2 ^ n) :
    (GroverSearch.mk n t none).optimal_iterations = optimalIterationsFormula n
      ∧ (GroverSearch.mk 3 5 none).optimal_iterations = 2
      ∧ (GroverSearch.mk 4 11 none).optimal_iterations = 3 := by
  have hpl := Real.pi_gt_d6
  have hpu := Real.pi_lt_d6
  refine ⟨?_, ?_, ?_⟩
  · show max (round (Real.pi / (4 : ℝ) * Real.sqrt ((1 <<< n : ℕ) : ℝ))).toNat 1
        = (max 1 (round (Real.pi / (4 : ℝ) * Real.sqrt ((2 : ℝ) ^ n)))).toNat
    have hcast : ((1 <<< n : ℕ) : ℝ) = (2 : ℝ) ^ n := by
      rw [Nat.one_shiftLeft]; push_cast; ring
    rw [hcast]
    have hnn : (0 : ℤ) ≤ round (Real.pi / (4 : ℝ) * Real.sqrt ((2 : ℝ) ^ n)) := by
      rw [round_eq]
      apply Int.floor_nonneg.mpr
      positivity
    omega
  · show max (round (Real.pi / (4 : ℝ) * Real.sqrt ((1 <<< 3 : ℕ) : ℝ))).toNat 1 = 2
    have hr : round (Real.pi / (4 : ℝ) * Real.sqrt ((1 <<< 3 : ℕ) : ℝ)) = 2 := by
      have h8 : ((1 <<< 3 : ℕ) : ℝ) = 8 := by
        rw [show (1 <<< 3 : ℕ) = 8 from rfl]; norm_num
      have hl : (2.8 : ℝ) < Real.sqrt 8 :=
        (Real.lt_sqrt (by norm_num : (0 : ℝ) ≤ 2.8)).mpr (by norm_num)
      have hu : Real.sqrt 8 < 2.9 :=
        (Real.sqrt_lt' (by norm_num : (0 : ℝ) < 2.9)).mpr (by norm_num)
      rw [h8, round_eq]
      apply Int.floor_eq_iff.mpr
      constructor
      · push_cast; nlinarith
      · push_cast; nlinarith
    rw [hr]; decide
  · show max (round (Real.pi / (4 : ℝ) * Real.sqrt ((1 <<< 4 : ℕ) : ℝ))).toNat 1 = 3
    have hr : round (Real.pi / (4 : ℝ) * Real.sqrt ((1 <<< 4 : ℕ) : ℝ)) = 3 := by
      have h16 : Real.sqrt ((1 <<< 4 : ℕ) : ℝ) = 4 := by
        rw [show ((1 <<< 4 : ℕ) : ℝ) = 16 by
          rw [show (1 <<< 4 : ℕ) = 16 from rfl]; norm_num,
          show (16 : ℝ) = 4 ^ 2 by norm_num,
          Real.sqrt_sq (by norm_num : (0 : ℝ) ≤ 4)]
      have hpl3 := Real.pi_gt_three
      rw [h16, round_eq]
      apply Int.floor_eq_iff.mpr
      constructor
      · push_cast; nlinarith
      · push_cast; nlinarith
    rw [hr]; decide

theorem claim_C7_witness :
    (GroverSearch.mk 3 5 none).optimal_iterations = optimalIterationsFormula 3
      ∧ (GroverSearch.mk 3 5 none).optimal_iterations = 2
      ∧ (GroverSearch.mk 4 11 none).optimal_iterations = 3 :=
  claim_C7 3 5 (by norm_num) (by norm_num)

/-- C8: for all n >= 1 and s < 2^n, `secret_as_binary()` returns a
string of length exactly n over the characters '0' and '1' whose
big-endian binary value is s; n = 4, s = 10 gives "1010" and n = 4,
s = 0 gives "0000". -/
theorem claim_C8 (n s : ℕ) (h1 : 1 ≤ n) (h2 : s < 2 ^ n) :
    ((BernsteinVazirani.mk n s).secret_as_binary).length = n
      ∧ (∀ c ∈ ((BernsteinVazirani.mk n s).secret_as_binary).toList,
          c = '0' ∨ c = '1')
      ∧ binValue ((BernsteinVazirani.mk n s).secret_as_binary) = s
      ∧ (BernsteinVazirani.mk 4 10).secret_as_binary = "1010"
      ∧ (BernsteinVazirani.mk 4 0).secret_as_binary = "0000" := by
  obtain ⟨ha, hb, hc⟩ := secret_as_binary_spec n s h1 h2
  refine ⟨ha, hb, hc, ?_, ?_⟩
  · simp [BernsteinVazirani.secret_as_binary, formatBinaryPadded, natBinDigits]
  · simp [BernsteinVazirani.secret_as_binary, formatBinaryPadded, natBinDigits]

theorem claim_C8_witness :
    ((BernsteinVazirani.mk 4 10).secret_as_binary).length = 4
      ∧ (∀ c ∈ ((BernsteinVazirani.mk 4 10).secret_as_binary).toList,
          c = '0' ∨ c = '1')
      ∧ binValue ((BernsteinVazirani.mk 4 10).secret_as_binary) = 10
      ∧ (BernsteinVazirani.mk 4 10).secret_as_binary = "1010"
      ∧ (BernsteinVazirani.mk 4 0).secret_as_binary = "0000" :=
  claim_C8 4 10 (by norm_num) (by norm_num)

/-- C9: for every nonempty string m, `DeutschJozsa::is_constant(m)` is
true iff every character of m is '0'; is_constant("000") is true and
is_constant("001") is false. -/
theorem claim_C9 (m : String) (hm : m ≠ "") :
    (DeutschJozsa.is_constant m = true ↔ ∀ c ∈ m.toList, c = '0')
      ∧ DeutschJozsa.is_constant "000" = true
      ∧ DeutschJozsa.is_constant "001" = false :=
  ⟨is_constant_iff m, by decide, by decide⟩

theorem claim_C9_witness :
    (DeutschJozsa.is_constant "000" = true ↔ ∀ c ∈ "000".toList, c = '0')
      ∧ DeutschJozsa.is_constant "000" = true
      ∧ DeutschJozsa.is_constant "001" = false :=
  claim_C9 "000" (by decide)

/-- C10: `DeutschJozsa::is_constant("")` returns true — the
all-characters-zero check is vacuously satisfied on the empty string. -/
theorem claim_C10 : DeutschJozsa.is_constant "" = true := by decide

end Homaya
